import Mathlib

/-!
Shallow embedding of `alt-config.h` (namespace `alt::config`), a reader/writer
for a YAML/JSON-adjacent configuration language, together with proofs about the
properties of its escaping utilities, tree model, lexer, parser and emitter.

Bytes of the source buffer are modelled as `Char`s (the format is ASCII apart
from pass-through payload bytes), `std::string` as `String`/`List Char`,
`std::map<std::string, Node*>` as a key-sorted association list
`List (String × Node)` (the sortedness invariant is maintained by `mapInsert`,
the model of `std::map::insert`), thrown `alt::config::Error` values as the
`Except String` error case carrying the error message, and `double` as `ℚ`.
-/

namespace AltConfig

/-- The single-quote character, code point 39 (written via its code point). -/
def squote : Char := Char.ofNat 39

/-- The characters trimmed by the trailing-whitespace erase in
`detail::Unescape`: `std::isspace` in the default locale is true exactly on
ASCII 9–13 and 32.  Bytes `≥ 0x80` are negative `char`s in the source and are
never trimmed; they are also not in this set. -/
def cppIsSpace (c : Char) : Bool :=
  c = ' ' || c = '\t' || c = '\n' || c = '\x0b' || c = '\x0c' || c = '\r'

/-- The trailing-whitespace erase at the end of `detail::Unescape`:
`res.erase(std::find_if(res.rbegin(), res.rend(), …).base(), res.end())`. -/
def trimTrailing (l : List Char) : List Char :=
  (l.reverse.dropWhile cppIsSpace).reverse

/-- The substitution loop of `detail::Unescape`: a backslash followed by `n` or
a literal newline yields `'\n'`, by `r` yields `'\r'`, by a quote or backslash
yields that character, and by anything else is passed through with the
backslash retained.  A backslash that ends the input is kept as-is. -/
def unescapeCore : List Char → List Char
  | [] => []
  | c :: rest =>
    if c = '\\' then
      match rest with
      | [] => ['\\']
      | c2 :: rest2 =>
        if c2 = 'n' ∨ c2 = '\n' then '\n' :: unescapeCore rest2
        else if c2 = 'r' then '\r' :: unescapeCore rest2
        else if c2 = squote ∨ c2 = '"' ∨ c2 = '\\' then c2 :: unescapeCore rest2
        else '\\' :: c2 :: unescapeCore rest2
    else c :: unescapeCore rest

/-- `detail::Unescape` on a character list: substitution, then the trailing
whitespace trim. -/
def unescapeList (l : List Char) : List Char :=
  trimTrailing (unescapeCore l)

/-- `detail::Unescape`. -/
def Unescape (s : String) : String :=
  String.mk (unescapeList s.data)

/-- One step of the `detail::Escape` switch. -/
def escapeChar (c : Char) : List Char :=
  if c = '\n' then ['\\', 'n']
  else if c = '\r' then ['\\', 'r']
  else if c = squote ∨ c = '"' ∨ c = '\\' then ['\\', c]
  else [c]

/-- The loop of `detail::Escape`. -/
def escapeCore : List Char → List Char
  | [] => []
  | c :: rest => escapeChar c ++ escapeCore rest

/-- `detail::Escape`. -/
def Escape (s : String) : String :=
  String.mk (escapeCore s.data)

/-- The tree value model: `Node` with its four discriminants
(`Type::NONE/SCALAR/LIST/DICT`).  The virtual `Value` hierarchy of the source
is collapsed into a sum type; `Node::Dict` (`std::map`) becomes a key-sorted
association list, the invariant being maintained by the insertion model
`mapInsert` below. -/
inductive Node where
  | none
  | scalar (s : String)
  | list (l : List Node)
  | dict (d : List (String × Node))

/-- `Node::IsNone` (a null `Node*` also answers true; absence is modelled by
`Option Node` where it matters). -/
def Node.isNone : Node → Bool
  | Node.none => true
  | _ => false

/-- Lexicographic comparison of character lists: the first differing position
decides, and a proper prefix is smaller.  This is
`std::lexicographical_compare`, which `std::less<std::string>` performs on the
bytes of the two strings. -/
def listLt : List Char → List Char → Bool
  | [], [] => false
  | [], _ :: _ => true
  | _ :: _, [] => false
  | a :: as, b :: bs =>
    if a < b then true
    else if b < a then false
    else listLt as bs

/-- `std::less<std::string>`, the ordering of the `std::map` behind `Node::Dict`. -/
def strLt (a b : String) : Bool :=
  listLt a.data b.data

/-- `std::map<std::string, Node*>::insert({k, v})` on the sorted association
list: inserts at the sorted position, and — as `insert`, unlike `operator[]` —
KEEPS the existing entry when the key is already present (`std::map` treats
keys with `¬(k < k') ∧ ¬(k' < k)` as the same key). -/
def mapInsert (k : String) (v : Node) : List (String × Node) → List (String × Node)
  | [] => [(k, v)]
  | (k', v') :: rest =>
    if strLt k k' then (k, v) :: (k', v') :: rest
    else if strLt k' k then (k', v') :: mapInsert k v rest
    else (k', v') :: rest

/-- Building a mapping by a sequence of `insert` calls starting from the empty
map (the order of the pairs is the insertion order). -/
def fromPairs (ps : List (String × Node)) : List (String × Node) :=
  ps.foldl (fun acc kv => mapInsert kv.1 kv.2 acc) []

/-- Models `std::stod` (plus the full-consumption check `idx < val.size()`
done by `ValueScalar::ToNumber`): optional leading whitespace, optional sign,
a decimal significand with at least one digit, an optional fraction and an
optional exponent, and nothing left over.  Hexadecimal, infinity and NaN
spellings and out-of-range magnitudes are not modelled; no input in this
development exercises them. -/
def stodFull (s : String) : Option ℚ :=
  let l0 := s.data.dropWhile cppIsSpace
  let sign : ℚ × List Char :=
    match l0 with
    | '+' :: r => (1, r)
    | '-' :: r => (-1, r)
    | _ => (1, l0)
  let intPart := sign.2.takeWhile Char.isDigit
  let l1 := sign.2.dropWhile Char.isDigit
  let frac : List Char × List Char :=
    match l1 with
    | '.' :: r => (r.takeWhile Char.isDigit, r.dropWhile Char.isDigit)
    | _ => ([], l1)
  if intPart = [] ∧ frac.1 = [] then Option.none
  else
    let digitsVal : List Char → Nat := fun ds => ds.foldl (fun a c => 10 * a + (c.toNat - 48)) 0
    let mant : ℚ := sign.1 * ((digitsVal intPart : ℚ) + (digitsVal frac.1 : ℚ) / (10 ^ frac.1.length : ℚ))
    match frac.2 with
    | [] => some mant
    | c :: r =>
      if c = 'e' ∨ c = 'E' then
        let esign : Int × List Char :=
          match r with
          | '+' :: r2 => (1, r2)
          | '-' :: r2 => (-1, r2)
          | _ => (1, r)
        let eds := esign.2.takeWhile Char.isDigit
        if eds = [] ∨ esign.2.dropWhile Char.isDigit ≠ [] then Option.none
        else some (mant * (10 : ℚ) ^ (esign.1 * (digitsVal eds : Int)))
      else Option.none

/-- Strict `Node::ToBool()`: `ValueScalar::ToBool` recognises
`"true"/"yes"/"false"/"no"` and throws `Error{"Not a bool"}` otherwise; every
other discriminant reaches the base `Value::ToBool`, which throws
`Error{"Invalid cast"}`. -/
def ToBool : Node → Except String Bool
  | Node.scalar s =>
    if s = "true" ∨ s = "yes" then .ok true
    else if s = "false" ∨ s = "no" then .ok false
    else .error "Not a bool"
  | _ => .error "Invalid cast"

/-- Strict `Node::ToNumber()`: `ValueScalar::ToNumber` runs `std::stod` and
throws `Error{"Not a number"}` on failure or partial consumption; every other
discriminant reaches the base `Value::ToNumber`, which throws
`Error{"Invalid cast"}`. -/
def ToNumber : Node → Except String ℚ
  | Node.scalar s =>
    match stodFull s with
    | some q => .ok q
    | Option.none => .error "Not a number"
  | _ => .error "Invalid cast"

/-- Strict `Node::ToString()`. -/
def ToString : Node → Except String String
  | Node.scalar s => .ok s
  | _ => .error "Invalid cast"

/-- Strict `Node::ToList()`. -/
def ToList : Node → Except String (List Node)
  | Node.list l => .ok l
  | _ => .error "Invalid cast"

/-- Strict `Node::ToDict()`. -/
def ToDict : Node → Except String (List (String × Node))
  | Node.dict d => .ok d
  | _ => .error "Invalid cast"

/-- Defaulted `Node::ToNumber(double def)`.  An absent node (a null `this`,
modelled as `Option.none`) returns the default; a `NONE`, `LIST` or `DICT`
node reaches the base `Value::ToNumber(double)`, which returns the default;
but a `SCALAR` node reaches the override
`ValueScalar::ToNumber(double def) { return ToNumber(); }`, which delegates to
the strict conversion. -/
def ToNumberD (n : Option Node) (d : ℚ) : Except String ℚ :=
  match n with
  | Option.none => .ok d
  | some (Node.scalar s) => ToNumber (Node.scalar s)
  | some _ => .ok d

/-- `Node::ValueList::Get(std::size_t idx)`: in range it returns the element
(the list is untouched); out of range it returns the shared `static Node none`
sentinel and, again, the list untouched.  The pair returns the result together
with the list after the call, making the frame condition explicit. -/
def listGet (l : List Node) (idx : Nat) : Node × List Node :=
  if h : idx < l.length then (l.get ⟨idx, h⟩, l)
  else (Node.none, l)

/-- `Node::ValueDict::Get(const std::string& key)`: a present key returns its
node and leaves the mapping unchanged; a missing key allocates a fresh
`NONE`-typed node, stores it under the key (`val[key] = newNode`, an insertion
at the sorted position since the key is absent) and returns it.  The pair
returns the result together with the mapping after the call. -/
def dictGet (d : List (String × Node)) (k : String) : Node × List (String × Node) :=
  match d.find? (fun kv => kv.1 == k) with
  | some kv => (kv.2, d)
  | Option.none => (Node.none, mapInsert k Node.none d)

mutual

/-- The copy taken by the copy constructor / `operator=` of `Node`
(`val->Copy()`). -/
def copyNode : Node → Node
  | Node.none => Node.none
  | Node.scalar s => Node.scalar s
  | Node.list l => Node.list (copyList l)
  | Node.dict d => Node.dict (copyDict d)

/-- `Node::ValueList::Copy`: children that are null or `NONE`-typed are
skipped; the others are deep-copied in order. -/
def copyList : List Node → List Node
  | [] => []
  | v :: rest => if v.isNone then copyList rest else copyNode v :: copyList rest

/-- `Node::ValueDict::Copy`: entries whose node is null or `NONE`-typed are
skipped; the others are deep-copied.  The source iterates the map in strictly
increasing key order and inserts into a fresh map, which reproduces the
surviving entries in that same order. -/
def copyDict : List (String × Node) → List (String × Node)
  | [] => []
  | (k, v) :: rest =>
    if v.isNone then copyDict rest else (k, copyNode v) :: copyDict rest

end

/-- `Parser::Token`, without the diagnostic positions (no claim concerns
them). -/
inductive Token where
  | arrayStart
  | arrayEnd
  | dictStart
  | dictEnd
  | key (s : String)
  | scalar (s : String)
deriving DecidableEq

mutual

/-- `Parser::SkipToNextToken`: skip whitespace and commas; on `#` consume a
comment (`skipCommentBody`) and keep scanning; stop at the first other
character. -/
def skipToNextToken : List Char → List Char
  | [] => []
  | c :: rest =>
    if c = ' ' || c = '\n' || c = '\r' || c = '\t' || c = ',' then skipToNextToken rest
    else if c = '#' then skipCommentBody rest
    else c :: rest

/-- The comment branch of `Parser::SkipToNextToken`, entered after the `#` is
consumed: the first `while` skips until newline, `#` or `"`; a `"` stop opens
the quoted-span loop (`skipCommentQuoted`); a newline or `#` stop is consumed
by the final `if (Unread() > 0) Skip()` and the outer loop continues.  (When
this loop exhausts the input, the source call `Peek()` reads past the buffer;
every path from there skips nothing and raises nothing, so the scan just
ends.) -/
def skipCommentBody : List Char → List Char
  | [] => []
  | c :: rest =>
    if !(c = '\n' || c = '#' || c = '"') then skipCommentBody rest
    else if c = '"' then skipCommentQuoted rest
    else skipToNextToken rest

/-- The quoted-span loop inside a comment, entered after its opening `"` was
consumed: skip until newline or `"`; that stopping character is consumed by
the final `if (Unread() > 0) Skip()` and the outer loop continues. -/
def skipCommentQuoted : List Char → List Char
  | [] => []
  | c :: rest =>
    if !(c = '\n' || c = '"') then skipCommentQuoted rest
    else skipToNextToken rest

end

/-- The loop of the quoted-scalar branch of `Parser::Tokenize`
(`while (Unread() > 1 && (Peek() == '\\' || Peek(1) != start)) …`), together
with the two steps after it: the final `val += Get()` and the `Skip()` of the
closing quote.  CR/LF sequences inside the string are normalised to a single
`'\n'`; running out of input before the closing quote throws
`Error("Unexpected end of file", …)`. -/
def scanQuotedLoop (q : Char) (l : List Char) (acc : List Char) :
    Except String (List Char × List Char) :=
  match l with
  | [] => .error "Unexpected end of file"
  | [_] => .error "Unexpected end of file"
  | c :: c2 :: rest =>
    if c = '\\' ∨ c2 ≠ q then
      if c = '\n' then scanQuotedLoop q (c2 :: rest) (acc ++ ['\n'])
      else if c = '\r' then
        if c2 = '\n' then scanQuotedLoop q rest (acc ++ ['\n'])
        else scanQuotedLoop q (c2 :: rest) (acc ++ ['\n'])
      else scanQuotedLoop q (c2 :: rest) (acc ++ [c])
    else .ok (acc ++ [c], rest)

/-- The quoted-scalar branch of `Parser::Tokenize`, entered after the opening
quote `q` was consumed: an immediately following closing quote yields the
empty value, otherwise `scanQuotedLoop` runs; an empty remainder hits the
end-of-file error. -/
def scanQuoted (q : Char) (l : List Char) : Except String (List Char × List Char) :=
  match l with
  | [] => .error "Unexpected end of file"
  | c :: rest => if c = q then .ok ([], rest) else scanQuotedLoop q (c :: rest) []

/-- The characters that terminate an unquoted scalar in `Parser::Tokenize`
(they are not consumed by the scalar itself). -/
def unquotedStop (c : Char) : Bool :=
  c = '\n' || c = ':' || c = ',' || c = ']' || c = '}' || c = '#'

/-- `Parser::FixEncoding`: strip a UTF-8 byte-order mark. -/
def stripBOM (l : List Char) : List Char :=
  match l with
  | a :: b :: c :: rest =>
    if a.toNat = 0xEF ∧ b.toNat = 0xBB ∧ c.toNat = 0xBF then rest
    else a :: b :: c :: rest
  | _ => l

/-- After the raw text `val` of a scalar has been captured and unescaped, classify
it as a `KEY` (when the next character is `:`) or a `SCALAR`, consume a
trailing `:` or `,` separator, and continue tokenizing. -/
def emitScalarToken (v : String) (rest : List Char) (cont : List Char → Except String (List Token)) :
    Except String (List Token) :=
  match rest with
  | ':' :: rest2 => do
    let ts ← cont rest2
    .ok (Token.key v :: ts)
  | ',' :: rest2 => do
    let ts ← cont rest2
    .ok (Token.scalar v :: ts)
  | _ => do
    let ts ← cont rest
    .ok (Token.scalar v :: ts)

/-- The main loop of `Parser::Tokenize` (fuelled; the loop consumes at least
one character per iteration, so `length + 1` fuel at the top level always
suffices). -/
def tokenizeLoop : Nat → List Char → Except String (List Token)
  | 0, _ => .error "out of fuel"
  | fuel + 1, l =>
    match skipToNextToken l with
    | [] => .ok []
    | c :: rest =>
      if c = '[' then do
        let ts ← tokenizeLoop fuel rest
        .ok (Token.arrayStart :: ts)
      else if c = ']' then do
        let ts ← tokenizeLoop fuel rest
        .ok (Token.arrayEnd :: ts)
      else if c = '{' then do
        let ts ← tokenizeLoop fuel rest
        .ok (Token.dictStart :: ts)
      else if c = '}' then do
        let ts ← tokenizeLoop fuel rest
        .ok (Token.dictEnd :: ts)
      else if c = squote ∨ c = '"' then do
        let (valChars, rest2) ← scanQuoted c rest
        emitScalarToken (String.mk (unescapeList valChars)) rest2 (tokenizeLoop fuel)
      else
        let valChars := (c :: rest).takeWhile (fun ch => !unquotedStop ch)
        let rest2 := (c :: rest).dropWhile (fun ch => !unquotedStop ch)
        emitScalarToken (String.mk (unescapeList valChars)) rest2 (tokenizeLoop fuel)

/-- `Parser::Tokenize` after `Parser::FixEncoding`: the token sequence is
wrapped in a synthesized outer `DICT_START`/`DICT_END` pair. -/
def tokenize (s : String) : Except String (List Token) := do
  let l := stripBOM s.data
  let ts ← tokenizeLoop (l.length + 1) l
  .ok (Token.dictStart :: ts ++ [Token.dictEnd])

mutual

/-- `Parser::Parse(std::deque<Token>::iterator&)` (fuelled; a value takes at
most one nested call per token, so any fuel above twice the token count is
enough).  The result pairs the parsed node with the unconsumed tokens.  A
token kind with no case in the switch of the source throws
`Error("Unexpected character", …)`; dereferencing the end iterator is
undefined behaviour in the source and is mapped to the same error. -/
def parseVal : Nat → List Token → Except String (Node × List Token)
  | 0, _ => .error "out of fuel"
  | fuel + 1, toks =>
    match toks with
    | Token.scalar s :: rest => .ok (Node.scalar s, rest)
    | Token.arrayStart :: rest => parseArr fuel rest []
    | Token.dictStart :: rest => parseDict fuel rest []
    | _ => .error "Unexpected character"

/-- The `ARRAY_START` loop of `Parser::Parse`: parse children until
`ARRAY_END`.  Running off the end of the token stream (`tok == tokens.end()`)
exits the loop in the source; the model returns the list built so far. -/
def parseArr : Nat → List Token → List Node → Except String (Node × List Token)
  | 0, _, _ => .error "out of fuel"
  | fuel + 1, toks, acc =>
    match toks with
    | [] => .ok (Node.list acc.reverse, [])
    | Token.arrayEnd :: rest => .ok (Node.list acc.reverse, rest)
    | _ => do
      let (n, rest) ← parseVal fuel toks
      parseArr fuel rest (n :: acc)

/-- The `DICT_START` loop of `Parser::Parse`: expect a `KEY` (else
`Error("key expected", …)`), parse the value and `insert` it —
`std::map::insert`, which keeps an existing entry for a duplicate key — until
`DICT_END`. -/
def parseDict : Nat → List Token → List (String × Node) → Except String (Node × List Token)
  | 0, _, _ => .error "out of fuel"
  | fuel + 1, toks, acc =>
    match toks with
    | [] => .ok (Node.dict acc, [])
    | Token.dictEnd :: rest => .ok (Node.dict acc, rest)
    | Token.key k :: rest => do
      let (n, rest2) ← parseVal fuel rest
      parseDict fuel rest2 (mapInsert k n acc)
    | _ :: _ => .error "key expected"

end

/-- Parsing a materialised token sequence (`Parser::Parse()` after
`Tokenize`). -/
def parseTokens (toks : List Token) : Except String Node := do
  let (n, _) ← parseVal (2 * toks.length + 2) toks
  .ok n

/-- The whole pipeline `Parser::Parse()`: fix encoding, tokenize, parse. -/
def parseString (s : String) : Except String Node := do
  let ts ← tokenize s
  parseTokens ts

/-- `std::string(indent * 2, ' ')`: the 2-space-per-level indentation
string. -/
def indentStr (n : Nat) : String :=
  String.mk (List.replicate (2 * n) ' ')

mutual

/-- `Emitter::Emit(node, os, indent, isLast)`, with the emitted characters as
the return value.  A scalar is single-quoted, escaped and newline-terminated
(no comma: `isLast` is unused for scalars); a list opens with `[`, emits each
element one level deeper and closes with `]` or `],` at the parent indent; a
mapping emits braces only when nested (`indent > 0`); a `NONE` node matches no
branch and emits nothing.  The parent-indent width `(indent - 1) * 2` uses
truncated subtraction; the source computes it in `int` and a top-level list,
never produced by the parser, would make it negative — undefined behaviour
not modelled further. -/
def emitNode : Node → Nat → Bool → String
  | Node.scalar s, _, _ => squote.toString ++ Escape s ++ squote.toString ++ "\n"
  | Node.list l, indent, isLast =>
    "[\n" ++ emitListItems l indent
      ++ indentStr (indent - 1) ++ (if isLast then "]\n" else "],\n")
  | Node.dict d, indent, isLast =>
    (if indent > 0 then "\x7b\n" else "")
      ++ emitDictEntries d indent
      ++ (if indent > 0 then indentStr (indent - 1) ++ (if isLast then "\x7d\n" else "\x7d,\n")
          else "")
  | Node.none, _, _ => ""

/-- The element loop of the list branch: each element is preceded by the
current indent and emitted one level deeper; the `isLast` argument is
`std::next(it) == list.end()`. -/
def emitListItems : List Node → Nat → String
  | [], _ => ""
  | v :: rest, indent =>
    indentStr indent ++ emitNode v (indent + 1) rest.isEmpty ++ emitListItems rest indent

/-- The entry loop of the mapping branch: an entry whose node is null or
`NONE`-typed is skipped (`continue`) and contributes nothing; any other entry
emits `key: ` at the current indent followed by its value one level deeper,
with `isLast = (std::next(it) == dict.end())`. -/
def emitDictEntries : List (String × Node) → Nat → String
  | [], _ => ""
  | (k, v) :: rest, indent =>
    (if v.isNone then ""
     else indentStr indent ++ k ++ ": " ++ emitNode v (indent + 1) rest.isEmpty)
      ++ emitDictEntries rest indent

end

/-- The public entry point of the emitter: `Emitter::Emit(node, os)` with the
default arguments `indent = 0`, `isLast = true`. -/
def emit (n : Node) : String :=
  emitNode n 0 true

/-! ### Basic facts about the key comparator -/

theorem char_eq_of_not_lt {a b : Char} (h1 : ¬a < b) (h2 : ¬b < a) : a = b :=
  le_antisymm (le_of_not_lt h2) (le_of_not_lt h1)

theorem str_ext {a b : String} (h : a.data = b.data) : a = b := by
  cases a
  cases b
  exact congrArg String.mk h

theorem listLt_irrefl : ∀ l : List Char, listLt l l = false
  | [] => rfl
  | a :: as => by
    simp only [listLt, lt_irrefl a, if_false]
    exact listLt_irrefl as

theorem strLt_irrefl (a : String) : strLt a a = false :=
  listLt_irrefl a.data

theorem listLt_rev_of_ne : ∀ {as bs : List Char},
    listLt as bs = false → as ≠ bs → listLt bs as = true
  | [], [], _, hne => absurd rfl hne
  | [], _ :: _, h, _ => by simp [listLt] at h
  | _ :: _, [], _, _ => by simp [listLt]
  | a :: as, b :: bs, h, hne => by
    simp only [listLt] at h ⊢
    by_cases hab : a < b
    · simp [hab] at h
    · by_cases hba : b < a
      · simp [hba]
      · have heq : a = b := char_eq_of_not_lt hab hba
        subst heq
        simp only [lt_irrefl a, if_false] at h ⊢
        exact listLt_rev_of_ne h (fun hh => hne (by rw [hh]))

theorem strLt_rev_of_ne {a b : String} (h : strLt a b = false) (hne : a ≠ b) :
    strLt b a = true :=
  listLt_rev_of_ne h (fun hd => hne (str_ext hd))

theorem str_eq_of_both_not_lt {a b : String} (h1 : strLt a b = false)
    (h2 : strLt b a = false) : a = b := by
  by_contra hne
  rw [strLt_rev_of_ne h1 hne] at h2
  exact Bool.noConfusion h2

theorem listLt_trans : ∀ {as bs cs : List Char},
    listLt as bs = true → listLt bs cs = true → listLt as cs = true
  | [], [], _, h1, _ => by simp [listLt] at h1
  | [], _ :: _, [], _, h2 => by simp [listLt] at h2
  | [], _ :: _, _ :: _, _, _ => by simp [listLt]
  | _ :: _, [], _, h1, _ => by simp [listLt] at h1
  | _ :: _, _ :: _, [], _, h2 => by simp [listLt] at h2
  | a :: as, b :: bs, c :: cs, h1, h2 => by
    simp only [listLt] at h1 h2 ⊢
    by_cases hab : a < b
    · by_cases hbc : b < c
      · simp [lt_trans hab hbc]
      · by_cases hcb : c < b
        · simp [hbc, hcb] at h2
        · have heq : b = c := char_eq_of_not_lt hbc hcb
          subst heq
          simp [hab]
    · by_cases hba : b < a
      · simp [hab, hba] at h1
      · have heq : a = b := char_eq_of_not_lt hab hba
        subst heq
        simp only [lt_irrefl a, if_false] at h1
        by_cases hac : a < c
        · simp [hac]
        · by_cases hca : c < a
          · simp [hac, hca] at h2
          · have heq2 : a = c := char_eq_of_not_lt hac hca
            subst heq2
            simp only [lt_irrefl a, if_false] at h2 ⊢
            exact listLt_trans h1 h2

theorem strLt_trans {a b c : String} (h1 : strLt a b = true) (h2 : strLt b c = true) :
    strLt a c = true :=
  listLt_trans h1 h2

/-! ### Facts about `mapInsert` -/

theorem mem_mapInsert {k : String} {v : Node} :
    ∀ {d : List (String × Node)} {x : String × Node},
      x ∈ mapInsert k v d → x = (k, v) ∨ x ∈ d
  | [], x, h => by simpa [mapInsert] using h
  | (k', v') :: rest, x, h => by
    simp only [mapInsert] at h
    by_cases h1 : strLt k k'
    · rw [if_pos h1] at h
      rcases List.mem_cons.mp h with h | h
      · exact Or.inl h
      · exact Or.inr h
    · rw [if_neg h1] at h
      by_cases h2 : strLt k' k
      · rw [if_pos h2] at h
        rcases List.mem_cons.mp h with h | h
        · exact Or.inr (by simp [h])
        · rcases mem_mapInsert h with h' | h'
          · exact Or.inl h'
          · exact Or.inr (List.mem_cons_of_mem _ h')
      · rw [if_neg h2] at h
        exact Or.inr h

theorem pairwise_mapInsert {k : String} {v : Node} :
    ∀ {d : List (String × Node)},
      d.Pairwise (fun a b => strLt a.1 b.1 = true) →
      (mapInsert k v d).Pairwise (fun a b => strLt a.1 b.1 = true)
  | [], _ => by simp [mapInsert]
  | (k', v') :: rest, h => by
    rcases List.pairwise_cons.mp h with ⟨hhead, hrest⟩
    simp only [mapInsert]
    by_cases h1 : strLt k k'
    · rw [if_pos h1]
      refine List.pairwise_cons.mpr ⟨?_, h⟩
      intro x hx
      rcases List.mem_cons.mp hx with hx | hx
      · rw [hx]
        exact h1
      · exact strLt_trans h1 (hhead x hx)
    · rw [if_neg h1]
      by_cases h2 : strLt k' k
      · rw [if_pos h2]
        refine List.pairwise_cons.mpr ⟨?_, pairwise_mapInsert hrest⟩
        intro x hx
        rcases mem_mapInsert hx with hx | hx
        · rw [hx]
          exact h2
        · exact hhead x hx
      · rw [if_neg h2]
        exact h

theorem fromPairs_loop_pairwise :
    ∀ (ps acc : List (String × Node)),
      acc.Pairwise (fun a b => strLt a.1 b.1 = true) →
      (ps.foldl (fun acc kv => mapInsert kv.1 kv.2 acc) acc).Pairwise
        (fun a b => strLt a.1 b.1 = true)
  | [], _, h => h
  | _ :: ps, _, h => fromPairs_loop_pairwise ps _ (pairwise_mapInsert h)

theorem fromPairs_pairwise (ps : List (String × Node)) :
    (fromPairs ps).Pairwise (fun a b => strLt a.1 b.1 = true) :=
  fromPairs_loop_pairwise ps [] (List.Pairwise.nil)

theorem mapInsert_length_of_not_mem {k : String} {v : Node} :
    ∀ {d : List (String × Node)}, (∀ kv ∈ d, kv.1 ≠ k) →
      (mapInsert k v d).length = d.length + 1
  | [], _ => rfl
  | (k', v') :: rest, h => by
    have hk' : k' ≠ k := h (k', v') (List.mem_cons_self _ _)
    simp only [mapInsert]
    by_cases h1 : strLt k k'
    · rw [if_pos h1]
      rfl
    · by_cases h2 : strLt k' k
      · rw [if_neg h1, if_pos h2]
        simp only [List.length_cons]
        rw [mapInsert_length_of_not_mem (fun kv hkv => h kv (List.mem_cons_of_mem _ hkv))]
      · rw [if_neg h1, if_neg h2]
        exact absurd (str_eq_of_both_not_lt (Bool.of_not_eq_true h2) (Bool.of_not_eq_true h1)) hk'

theorem mapInsert_find?_self {k : String} {v : Node} :
    ∀ {d : List (String × Node)}, (∀ kv ∈ d, kv.1 ≠ k) →
      (mapInsert k v d).find? (fun kv => kv.1 == k) = some (k, v)
  | [], _ => by simp [mapInsert]
  | (k', v') :: rest, h => by
    have hk' : k' ≠ k := h (k', v') (List.mem_cons_self _ _)
    simp only [mapInsert]
    by_cases h1 : strLt k k'
    · rw [if_pos h1]
      simp
    · by_cases h2 : strLt k' k
      · rw [if_neg h1, if_pos h2]
        rw [List.find?_cons_of_neg _ (by simpa using hk')]
        exact mapInsert_find?_self (fun kv hkv => h kv (List.mem_cons_of_mem _ hkv))
      · rw [if_neg h1, if_neg h2]
        exact absurd (str_eq_of_both_not_lt (Bool.of_not_eq_true h2) (Bool.of_not_eq_true h1)) hk'

theorem mapInsert_mapInsert_same (k : String) (v1 v2 : Node) :
    ∀ d : List (String × Node), mapInsert k v2 (mapInsert k v1 d) = mapInsert k v1 d
  | [] => by simp [mapInsert, strLt_irrefl]
  | (k', v') :: rest => by
    simp only [mapInsert]
    by_cases h1 : strLt k k'
    · rw [if_pos h1]
      simp [mapInsert, strLt_irrefl]
    · by_cases h2 : strLt k' k
      · rw [if_neg h1, if_pos h2]
        simp only [mapInsert, if_neg h1, if_pos h2]
        rw [mapInsert_mapInsert_same k v1 v2 rest]
      · rw [if_neg h1, if_neg h2]
        simp only [mapInsert, if_neg h1, if_neg h2]

/-! ### Facts about escaping and unescaping -/

theorem escapeChar_of_plain {c : Char} (h1 : ¬c = '\n') (h2 : ¬c = '\r')
    (h3 : ¬(c = squote ∨ c = '"' ∨ c = '\\')) : escapeChar c = [c] := by
  unfold escapeChar
  rw [if_neg h1, if_neg h2, if_neg h3]

theorem unescapeCore_cons_quote_or_backslash {c : Char}
    (h : c = squote ∨ c = '"' ∨ c = '\\') (t : List Char) :
    unescapeCore ('\\' :: c :: t) = c :: unescapeCore t := by
  rcases h with h | h | h <;> subst h <;> rfl

theorem unescapeCore_cons_plain {c : Char} (h : ¬c = '\\') (t : List Char) :
    unescapeCore (c :: t) = c :: unescapeCore t := by
  rw [unescapeCore.eq_def]
  simp only []
  rw [if_neg h]

theorem unescapeCore_escapeCore : ∀ l : List Char, unescapeCore (escapeCore l) = l
  | [] => rfl
  | c :: rest => by
    by_cases h1 : c = '\n'
    · subst h1
      show '\n' :: unescapeCore (escapeCore rest) = '\n' :: rest
      rw [unescapeCore_escapeCore rest]
    · by_cases h2 : c = '\r'
      · subst h2
        show '\r' :: unescapeCore (escapeCore rest) = '\r' :: rest
        rw [unescapeCore_escapeCore rest]
      · by_cases h3 : c = squote ∨ c = '"' ∨ c = '\\'
        · rcases h3 with h | h | h
          · subst h
            show squote :: unescapeCore (escapeCore rest) = squote :: rest
            rw [unescapeCore_escapeCore rest]
          · subst h
            show '"' :: unescapeCore (escapeCore rest) = '"' :: rest
            rw [unescapeCore_escapeCore rest]
          · subst h
            show '\\' :: unescapeCore (escapeCore rest) = '\\' :: rest
            rw [unescapeCore_escapeCore rest]
        · have he : escapeCore (c :: rest) = c :: escapeCore rest := by
            show escapeChar c ++ escapeCore rest = c :: escapeCore rest
            rw [escapeChar_of_plain h1 h2 h3]
            rfl
          rw [he, unescapeCore_cons_plain (fun hh => h3 (Or.inr (Or.inr hh))),
            unescapeCore_escapeCore rest]

/-! ### Facts about the deep copy -/

theorem copyNode_isNone : ∀ n : Node, (copyNode n).isNone = n.isNone
  | Node.none => rfl
  | Node.scalar _ => rfl
  | Node.list _ => rfl
  | Node.dict _ => rfl

theorem copyList_eq_filter_map : ∀ l : List Node,
    copyList l = (l.filter (fun c => !c.isNone)).map copyNode
  | [] => rfl
  | v :: rest => by
    by_cases h : v.isNone
    · simp [copyList, h, copyList_eq_filter_map rest]
    · simp [copyList, Bool.of_not_eq_true h, copyList_eq_filter_map rest]

theorem copyDict_eq_filter_map : ∀ d : List (String × Node),
    copyDict d = (d.filter (fun kv => !kv.2.isNone)).map (fun kv => (kv.1, copyNode kv.2))
  | [] => rfl
  | (k, v) :: rest => by
    by_cases h : v.isNone
    · simp [copyDict, h, copyDict_eq_filter_map rest]
    · simp [copyDict, Bool.of_not_eq_true h, copyDict_eq_filter_map rest]

theorem copyList_length_le (l : List Node) : (copyList l).length ≤ l.length := by
  rw [copyList_eq_filter_map, List.length_map]
  exact List.length_filter_le _ l

theorem copyDict_length_le (d : List (String × Node)) : (copyDict d).length ≤ d.length := by
  rw [copyDict_eq_filter_map, List.length_map]
  exact List.length_filter_le _ d

theorem copyList_length_lt : ∀ {l : List Node}, Node.none ∈ l →
    (copyList l).length < l.length
  | v :: rest, h => by
    rcases List.mem_cons.mp h with h | h
    · rw [show v = Node.none from h.symm]
      simp only [copyList, Node.isNone, if_true, List.length_cons]
      exact Nat.lt_succ_of_le (copyList_length_le rest)
    · by_cases hv : v.isNone
      · simp only [copyList, hv, if_true, List.length_cons]
        exact Nat.lt_succ_of_le (copyList_length_le rest)
      · simp only [copyList, hv, if_false, List.length_cons]
        exact Nat.succ_lt_succ (copyList_length_lt h)

theorem copyDict_length_lt {k : String} : ∀ {d : List (String × Node)},
    (k, Node.none) ∈ d → (copyDict d).length < d.length
  | (k', v) :: rest, h => by
    rcases List.mem_cons.mp h with h | h
    · rw [show v = Node.none from congrArg Prod.snd h.symm]
      simp only [copyDict, Node.isNone, if_true, List.length_cons]
      exact Nat.lt_succ_of_le (copyDict_length_le rest)
    · by_cases hv : v.isNone
      · simp only [copyDict, hv, if_true, List.length_cons]
        exact Nat.lt_succ_of_le (copyDict_length_le rest)
      · simp only [copyDict, hv, if_false, List.length_cons]
        exact Nat.succ_lt_succ (copyDict_length_lt h)

/-! ### The claims -/

/-- Claim C2, counterexample: the defaulted conversion `ToNumber(default)` on
the non-numeric scalar `"seven"` raises `Error{"Not a number"}` instead of
returning the default, because `ValueScalar::ToNumber(double)` delegates to
the strict `ToNumber()`.  This refutes "returns `default` in every case,
never raises". -/
theorem toNumberD_scalar_raises_cex :
    ToNumberD (some (Node.scalar "seven")) 42 = .error "Not a number"
    ∧ (Except.error "Not a number" : Except String ℚ) ≠ .ok 42 := by
  constructor
  · rfl
  · intro h
    exact Except.noConfusion h

/-- Claim C2, amended: the defaulted conversion `ToNumber(d)` returns `d` on
an absent value, a `None` value, a list and a mapping; on a scalar it behaves
exactly like the strict conversion (so it raises on a non-numeric scalar and
returns the parsed number otherwise). -/
theorem toNumberD_defaulted_behaviour (d : ℚ) (l : List Node)
    (dd : List (String × Node)) (s : String) :
    ToNumberD Option.none d = .ok d
    ∧ ToNumberD (some Node.none) d = .ok d
    ∧ ToNumberD (some (Node.list l)) d = .ok d
    ∧ ToNumberD (some (Node.dict dd)) d = .ok d
    ∧ ToNumberD (some (Node.scalar s)) d = ToNumber (Node.scalar s) :=
  ⟨rfl, rfl, rfl, rfl, rfl⟩

/-- Claim C3, counterexample: `"\n"` contains a newline, yet
`Unescape(Escape("\n"))` is the empty string, not `"\n"`, because `Unescape`
trims trailing whitespace after substitution.  This refutes
`Unescape(Escape(s)) == s` for every string containing newline, carriage
return, quote or backslash characters. -/
theorem unescape_escape_roundtrip_cex :
    Unescape (Escape "\n") ≠ "\n" ∧ Unescape (Escape "\n") = "" := by
  constructor
  · decide
  · decide

/-- Claim C3, amended: `Unescape(Escape(s))` equals `s` with its trailing
whitespace trimmed — hence equals `s` exactly for strings not ending in
whitespace, wherever their newline, carriage-return, quote or backslash
characters sit; the escape/unescape substitutions themselves are exact
inverses, and the trimming belongs to `Unescape` alone (`Escape` never
trims). -/
theorem unescape_escape_roundtrip (s : String) :
    unescapeCore (escapeCore s.data) = s.data
    ∧ Unescape (Escape s) = String.mk (trimTrailing s.data)
    ∧ (trimTrailing s.data = s.data → Unescape (Escape s) = s) := by
  have hsub : unescapeCore (escapeCore s.data) = s.data := unescapeCore_escapeCore s.data
  have hmain : Unescape (Escape s) = String.mk (trimTrailing s.data) := by
    show String.mk (unescapeList (String.mk (escapeCore s.data)).data) = _
    show String.mk (trimTrailing (unescapeCore (escapeCore s.data))) = _
    rw [hsub]
  refine ⟨hsub, hmain, fun htrim => ?_⟩
  rw [hmain, htrim]

/-- Claim C3, witness: a string containing a backslash and no trailing
whitespace round-trips unchanged. -/
theorem unescape_escape_roundtrip_witness : Unescape (Escape "x\\y") = "x\\y" :=
  (unescape_escape_roundtrip "x\\y").2.2 (by decide)

/-- Claim C4: `ValueDict::Get` on a missing key inserts a fresh `None`-typed
entry under that key (the mapping grows by exactly one entry and a subsequent
`find` locates the new entry) and returns that `None` node. -/
theorem dictGet_missing_key_inserts (d : List (String × Node)) (k : String)
    (h : ∀ kv ∈ d, kv.1 ≠ k) :
    dictGet d k = (Node.none, mapInsert k Node.none d)
    ∧ (mapInsert k Node.none d).length = d.length + 1
    ∧ (mapInsert k Node.none d).find? (fun kv => kv.1 == k) = some (k, Node.none) := by
  refine ⟨?_, mapInsert_length_of_not_mem h, mapInsert_find?_self h⟩
  unfold dictGet
  rw [List.find?_eq_none.mpr (fun kv hkv => by simpa using h kv hkv)]

/-- Claim C4, witness: reading the missing key `"z"` of a one-entry mapping
returns `None` and leaves a two-entry mapping behind. -/
theorem dictGet_missing_key_inserts_witness :
    dictGet [("a", Node.scalar "1")] "z"
        = (Node.none, mapInsert "z" Node.none [("a", Node.scalar "1")])
    ∧ (mapInsert "z" Node.none [("a", Node.scalar "1")]).length
        = [("a", Node.scalar "1")].length + 1
    ∧ (mapInsert "z" Node.none [("a", Node.scalar "1")]).find? (fun kv => kv.1 == "z")
        = some ("z", Node.none) :=
  dictGet_missing_key_inserts [("a", Node.scalar "1")] "z" (by decide)

/-- Claim C5: `ValueList::Get` at an index at or beyond the length returns the
shared `None` sentinel and leaves the list — its length and every element —
unchanged. -/
theorem listGet_out_of_range_frame (l : List Node) (idx : Nat) (h : l.length ≤ idx) :
    listGet l idx = (Node.none, l) := by
  unfold listGet
  rw [dif_neg (by omega)]

/-- Claim C5, witness: indexing a 2-element list at position 5 returns `None`
and the list is unchanged. -/
theorem listGet_out_of_range_frame_witness :
    listGet [Node.scalar "a", Node.scalar "b"] 5
      = (Node.none, [Node.scalar "a", Node.scalar "b"]) :=
  listGet_out_of_range_frame [Node.scalar "a", Node.scalar "b"] 5 (by decide)

/-- Claim C6: strict `ToBool()` accepts exactly `"true"/"yes"` (true) and
`"false"/"no"` (false) and raises `Error{"Not a bool"}` on every other
scalar; and every strict conversion (`ToBool`, `ToNumber`, `ToString`,
`ToList`, `ToDict`) on a `None`-typed value raises `Error{"Invalid cast"}`. -/
theorem strict_conversion_errors :
    ToBool (Node.scalar "true") = .ok true
    ∧ ToBool (Node.scalar "yes") = .ok true
    ∧ ToBool (Node.scalar "false") = .ok false
    ∧ ToBool (Node.scalar "no") = .ok false
    ∧ (∀ s : String, s ≠ "true" → s ≠ "yes" → s ≠ "false" → s ≠ "no" →
        ToBool (Node.scalar s) = .error "Not a bool")
    ∧ ToBool Node.none = .error "Invalid cast"
    ∧ ToNumber Node.none = .error "Invalid cast"
    ∧ ToString Node.none = .error "Invalid cast"
    ∧ ToList Node.none = .error "Invalid cast"
    ∧ ToDict Node.none = .error "Invalid cast" := by
  refine ⟨rfl, rfl, rfl, rfl, ?_, rfl, rfl, rfl, rfl, rfl⟩
  intro s h1 h2 h3 h4
  show (if s = "true" ∨ s = "yes" then Except.ok true
        else if s = "false" ∨ s = "no" then Except.ok false
        else (Except.error "Not a bool" : Except String Bool))
      = Except.error "Not a bool"
  rw [if_neg (by simp [h1, h2]), if_neg (by simp [h3, h4])]

/-- Claim C6, witness: strict `ToBool()` on the scalar `"seven"` raises the
type error. -/
theorem strict_conversion_errors_witness :
    ToBool (Node.scalar "seven") = .error "Not a bool" :=
  strict_conversion_errors.2.2.2.2.1 "seven" (by decide) (by decide) (by decide) (by decide)

/-- Claim C1, counterexample: parsing `a: 1, a: 2` yields the mapping
`{a: "1"}` — the value of the FIRST occurrence — because `Parser::Parse`
inserts with `std::map::insert`, which keeps an existing entry; the value of
the last occurrence, `"2"`, is not the result.  This refutes
last-write-wins. -/
theorem parse_duplicate_key_cex :
    parseString "a: 1, a: 2" = .ok (Node.dict [("a", Node.scalar "1")])
    ∧ Node.scalar "1" ≠ Node.scalar "2" := by
  constructor
  · rfl
  · intro h
    injection h with h'
    exact absurd h' (by decide)

/-- Claim C1, amended: when the same key appears more than once at the same
nesting level, the parsed mapping keeps the value of the FIRST occurrence;
the value of the later duplicate is parsed and then discarded by
`std::map::insert` (for any key, values, surrounding mapping contents and
following tokens, with any spare fuel). -/
theorem parse_duplicate_key_first_wins (fuel : Nat) (k v1 v2 : String)
    (acc : List (String × Node)) (rest : List Token) :
    parseDict (fuel + 3)
        (Token.key k :: Token.scalar v1 :: Token.key k :: Token.scalar v2
          :: Token.dictEnd :: rest) acc
      = .ok (Node.dict (mapInsert k (Node.scalar v1) acc), rest) := by
  show Except.ok
      (Node.dict (mapInsert k (Node.scalar v2) (mapInsert k (Node.scalar v1) acc)), rest)
    = Except.ok (Node.dict (mapInsert k (Node.scalar v1) acc), rest)
  rw [mapInsert_mapInsert_same]

/-- Claim C7: mapping entries are emitted in lexicographic key order.  A
mapping holding keys `a` and `b` is the same key-sorted list whichever of the
two was inserted first; every mapping built by insertions is key-sorted; and
emitting the `{"b": "1", "a": "2"}` example lists `a: '2'` before
`b: '1'`. -/
theorem emit_dict_sorted_keys (va vb : String) :
    fromPairs [("b", Node.scalar vb), ("a", Node.scalar va)]
        = [("a", Node.scalar va), ("b", Node.scalar vb)]
    ∧ fromPairs [("a", Node.scalar va), ("b", Node.scalar vb)]
        = [("a", Node.scalar va), ("b", Node.scalar vb)]
    ∧ (∀ ps : List (String × Node),
        (fromPairs ps).Pairwise (fun a b => strLt a.1 b.1 = true))
    ∧ emit (Node.dict (fromPairs [("b", Node.scalar "1"), ("a", Node.scalar "2")]))
        = "a: " ++ squote.toString ++ "2" ++ squote.toString ++ "\n"
          ++ ("b: " ++ squote.toString ++ "1" ++ squote.toString ++ "\n") :=
  ⟨rfl, rfl, fromPairs_pairwise, by decide⟩

/-- Claim C8: a mapping entry whose value is `None`-typed is skipped by the
emitter — the emitted text does not depend on the key of that entry (first
conjunct, for an entry at any position), and an initial run of such entries
contributes no characters at all (second conjunct). -/
theorem emit_skips_none_entries (indent : Nat) (d1 d2 : List (String × Node))
    (k k' : String) :
    emitDictEntries (d1 ++ (k, Node.none) :: d2) indent
        = emitDictEntries (d1 ++ (k', Node.none) :: d2) indent
    ∧ emitDictEntries ((k, Node.none) :: d2) indent = emitDictEntries d2 indent := by
  constructor
  · induction d1 with
    | nil => rfl
    | cons e d1 ih =>
      rcases e with ⟨ka, va⟩
      simp only [List.cons_append, emitDictEntries, List.append_eq]
      rw [ih]
      have h1 : (d1 ++ (k, Node.none) :: d2).isEmpty = false := by
        cases d1 <;> rfl
      have h2 : (d1 ++ (k', Node.none) :: d2).isEmpty = false := by
        cases d1 <;> rfl
      rw [h1, h2]
  · rfl

/-- Claim C9: the deep copy taken by the copy constructor and the assignment
operator drops `None`-typed children at every level: the copied
list/mapping keeps exactly the non-`None` children (each deep-copied), every
child of the copy is non-`None`, and a container holding a `None` child — for
a mapping, e.g. an auto-vivified entry — copies to strictly fewer
children. -/
theorem copy_drops_none_children (l : List Node) (d : List (String × Node)) (k : String) :
    copyNode (Node.list l) = Node.list (copyList l)
    ∧ copyNode (Node.dict d) = Node.dict (copyDict d)
    ∧ copyList l = (l.filter (fun c => !c.isNone)).map copyNode
    ∧ copyDict d = (d.filter (fun kv => !kv.2.isNone)).map (fun kv => (kv.1, copyNode kv.2))
    ∧ (∀ c ∈ copyList l, c.isNone = false)
    ∧ (∀ kv ∈ copyDict d, kv.2.isNone = false)
    ∧ (Node.none ∈ l → (copyList l).length < l.length)
    ∧ ((k, Node.none) ∈ d → (copyDict d).length < d.length) := by
  refine ⟨rfl, rfl, copyList_eq_filter_map l, copyDict_eq_filter_map d, ?_, ?_,
    copyList_length_lt, copyDict_length_lt⟩
  · intro c hc
    rw [copyList_eq_filter_map] at hc
    rcases List.mem_map.mp hc with ⟨x, hx, hcx⟩
    have hxn := List.of_mem_filter hx
    rw [← hcx, copyNode_isNone]
    simpa using hxn
  · intro kv hkv
    rw [copyDict_eq_filter_map] at hkv
    rcases List.mem_map.mp hkv with ⟨x, hx, hcx⟩
    have hxn := List.of_mem_filter hx
    rw [← hcx]
    show (copyNode x.2).isNone = false
    rw [copyNode_isNone]
    simpa using hxn

/-- Claim C9, witness: copying a list holding a `None` child and a mapping
holding a `None`-valued entry each lose an entry. -/
theorem copy_drops_none_children_witness :
    (copyList [Node.scalar "x", Node.none]).length < 2
    ∧ (copyDict [("a", Node.scalar "1"), ("z", Node.none)]).length < 2 :=
  ⟨(copy_drops_none_children [Node.scalar "x", Node.none] [] "z").2.2.2.2.2.2.1
      (by simp),
   (copy_drops_none_children [] [("a", Node.scalar "1"), ("z", Node.none)] "z").2.2.2.2.2.2.2
      (by simp)⟩

/-- Claim C10: a `#` comment does not always run to the newline: the comment
scan stops at the next `#` (or `"`) as well, so for a line with a second `#`
before the newline everything after that second `#` is scanned as ordinary
input (first conjunct, for any comment body free of `\n`/`#`/`"`), and
tokenizing `# a # def` produces the scalar token `def` rather than an empty
token stream (second conjunct). -/
theorem comment_stops_at_second_hash :
    (∀ body rest : List Char,
        (∀ c ∈ body, c ≠ '\n' ∧ c ≠ '#' ∧ c ≠ '"') →
        skipToNextToken ('#' :: (body ++ '#' :: rest)) = skipToNextToken rest)
    ∧ tokenize "# a # def" = .ok [Token.dictStart, Token.scalar "def", Token.dictEnd] := by
  constructor
  · intro body rest h
    show skipCommentBody (body ++ '#' :: rest) = skipToNextToken rest
    induction body with
    | nil => rfl
    | cons c body ih =>
      have hc := h c (List.mem_cons_self _ _)
      show (if !(c = '\n' || c = '#' || c = '"') then skipCommentBody (body ++ '#' :: rest)
            else if c = '"' then skipCommentQuoted (body ++ '#' :: rest)
            else skipToNextToken (body ++ '#' :: rest))
          = skipToNextToken rest
      rw [if_pos (by simp [hc.1, hc.2.1, hc.2.2]),
        ih (fun x hx => h x (List.mem_cons_of_mem _ hx))]
  · rfl

/-- Claim C10, witness: the comment-stop rule at a concrete comment body. -/
theorem comment_stops_at_second_hash_witness :
    skipToNextToken ('#' :: ([' ', 'a', ' '] ++ '#' :: " def".data))
      = skipToNextToken (" def".data) :=
  comment_stops_at_second_hash.1 [' ', 'a', ' '] (" def".data) (by decide)

end AltConfig
